import Mathlib

/-!
Verification of the segment-ring bookkeeping and trip-lifecycle engine of the
dashcam_rs repository.

The Rust sources embedded here:
- src/src/db/db.rs   — per-(camera, sink) ring counters (update_segment_counters,
  increment_segment_index, clamp_segment_index), parameterized by max_segments.
- src/src/db.rs      — per-camera variant of the same counter logic (with the
  SEGMENTS_TO_KEEP constant in place of the max_segments parameter) plus the
  trip ledger (insert_trip, finalize_open_trip, new_trip,
  save_trip_and_start_new, fetch_open_trip, mark_fully_evicted_trips).
- src/src/config.rs  — verify_app_config.

Machine integers (Rust i64) are modelled as Int; the SQLite remainder operator
(which truncates toward zero, like C) is modelled as Int.tmod.  SQL UPDATE and
INSERT statements over the trips and saved_trips tables are modelled as pure
transformations of a Db record holding the table contents as lists, with SQLite
rowid assignment modelled by a next_id counter.
-/

/-- One row of the camera_state table: the ring counters of a (camera, sink)
binding. Mirrors the (segment_index, segment_generation, absolute_segments)
triple read and written by the counter operations in src/db/db.rs. -/
structure CameraState where
  segment_index : Int
  segment_generation : Int
  absolute_segments : Int
deriving DecidableEq, Repr

/-- Embedding of DashcamDb::update_segment_counters (src/db/db.rs lines
246-307; the per-camera variant update_segment_counters_from_index in
src/db.rs lines 218-281 is the same logic with max_segments fixed to
SEGMENTS_TO_KEEP).  The whole body is one SQL transaction; its effect on the
camera_state row is this pure function. -/
def update_segment_counters (st : CameraState) (new_segment_index : Int)
    (max_segments : Int) : CameraState :=
  -- "if new_segment_index == cur_idx { return Ok(()) }"
  if new_segment_index = st.segment_index then st
  else
    let max := max_segments
    let wrapped : Bool := new_segment_index < st.segment_index
    let diff : Int :=
      if wrapped then (max - st.segment_index) + new_segment_index
      else new_segment_index - st.segment_index
    { segment_index := new_segment_index
      segment_generation :=
        if wrapped then st.segment_generation + 1 else st.segment_generation
      absolute_segments := st.absolute_segments + diff }

/-- Embedding of DashcamDb::increment_segment_index (src/db/db.rs lines
312-359; same logic in src/db.rs lines 285-325 with SEGMENTS_TO_KEEP).
Returns the committed state together with the returned post-increment ring
index. -/
def increment_segment_index (st : CameraState) (max_segments : Int) :
    CameraState × Int :=
  let next : Int × Int :=
    if st.segment_index + 1 ≥ max_segments then (0, st.segment_generation + 1)
    else (st.segment_index + 1, st.segment_generation)
  ({ segment_index := next.1
     segment_generation := next.2
     absolute_segments := st.absolute_segments + 1 }, next.1)

/-- Embedding of DashcamDb::clamp_segment_index (src/db/db.rs lines 366-379;
src/db.rs lines 328-336).  The SQL is
"SET segment_index = segment_index % max_segments"; SQLite's % truncates
toward zero, which is Int.tmod. -/
def clamp_segment_index (st : CameraState) (max_segments : Int) : CameraState :=
  { st with segment_index := Int.tmod st.segment_index max_segments }

/-- SQLite's truncating remainder is idempotent: reducing an already reduced
value is a no-op.  Used for the clamp idempotence claim. -/
theorem tmod_tmod_self (a b : Int) : (a.tmod b).tmod b = a.tmod b := by
  have hofNat : ∀ (k : Nat) (n : Nat), k % n = k →
      Int.tmod (Int.ofNat k) (Int.ofNat n) = Int.ofNat k := by
    intro k n hk
    simp only [Int.tmod]
    rw [hk]
  have hofNatNeg : ∀ (k : Nat) (n : Nat), k % (n + 1) = k →
      Int.tmod (Int.ofNat k) (Int.negSucc n) = Int.ofNat k := by
    intro k n hk
    simp only [Int.tmod]
    rw [Nat.succ_eq_add_one, hk]
  have hnegOfNat : ∀ (k : Nat) (n : Nat), k % n = k →
      Int.tmod (-(Int.ofNat k)) (Int.ofNat n) = -(Int.ofNat k) := by
    intro k n hk
    cases k with
    | zero => simp
    | succ j =>
      show Int.tmod (Int.negSucc j) (Int.ofNat n) = Int.negSucc j
      simp only [Int.tmod]
      rw [Nat.succ_eq_add_one, hk]
      rfl
  have hnegOfNatNeg : ∀ (k : Nat) (n : Nat), k % (n + 1) = k →
      Int.tmod (-(Int.ofNat k)) (Int.negSucc n) = -(Int.ofNat k) := by
    intro k n hk
    cases k with
    | zero => simp
    | succ j =>
      show Int.tmod (Int.negSucc j) (Int.negSucc n) = Int.negSucc j
      simp only [Int.tmod]
      rw [Nat.succ_eq_add_one, hk]
      rfl
  cases a with
  | ofNat m =>
    cases b with
    | ofNat n =>
      show Int.tmod (Int.ofNat (m % n)) (Int.ofNat n) = Int.ofNat (m % n)
      exact hofNat _ _ (Nat.mod_mod_of_dvd _ dvd_rfl)
    | negSucc n =>
      show Int.tmod (Int.ofNat (m % n.succ)) (Int.negSucc n) = Int.ofNat (m % n.succ)
      exact hofNatNeg _ _ (Nat.mod_mod_of_dvd _ dvd_rfl)
  | negSucc m =>
    cases b with
    | ofNat n =>
      show Int.tmod (-(Int.ofNat (m.succ % n))) (Int.ofNat n) = -(Int.ofNat (m.succ % n))
      exact hnegOfNat _ _ (Nat.mod_mod_of_dvd _ dvd_rfl)
    | negSucc n =>
      show Int.tmod (-(Int.ofNat (m.succ % n.succ))) (Int.negSucc n) = -(Int.ofNat (m.succ % n.succ))
      exact hnegOfNatNeg _ _ (Nat.mod_mod_of_dvd _ dvd_rfl)

/-- C1: update_to(new_index) on state (cur_idx, cur_gen, cur_abs) with ring
size max_segments: if new_index = cur_idx the counters are unchanged; if
new_index > cur_idx the committed state is
(new_index, cur_gen, cur_abs + (new_index - cur_idx)); if new_index < cur_idx
the committed state is
(new_index, cur_gen + 1, cur_abs + (max_segments - cur_idx) + new_index). -/
theorem update_segment_counters_update_to_cases (st : CameraState)
    (n m : Int) :
    (n = st.segment_index → update_segment_counters st n m = st) ∧
    (st.segment_index < n →
      update_segment_counters st n m =
        { segment_index := n
          segment_generation := st.segment_generation
          absolute_segments := st.absolute_segments + (n - st.segment_index) }) ∧
    (n < st.segment_index →
      update_segment_counters st n m =
        { segment_index := n
          segment_generation := st.segment_generation + 1
          absolute_segments :=
            st.absolute_segments + ((m - st.segment_index) + n) }) := by
  refine ⟨fun h => by simp [update_segment_counters, h], fun h => ?_, fun h => ?_⟩
  · have hne : n ≠ st.segment_index := ne_of_gt h
    have hnlt : ¬ n < st.segment_index := not_lt_of_gt h
    simp [update_segment_counters, hne, hnlt]
  · have hne : n ≠ st.segment_index := ne_of_lt h
    simp [update_segment_counters, hne, h]

/-- Witness for C1: concrete instances of all three cases. -/
theorem update_segment_counters_update_to_cases_witness :
    update_segment_counters ⟨3, 0, 3⟩ 3 10 = ⟨3, 0, 3⟩ ∧
    update_segment_counters ⟨3, 0, 3⟩ 5 10 = ⟨5, 0, 5⟩ ∧
    update_segment_counters ⟨8, 0, 8⟩ 2 10 = ⟨2, 1, 12⟩ :=
  ⟨(update_segment_counters_update_to_cases ⟨3, 0, 3⟩ 3 10).1 (by decide),
   (update_segment_counters_update_to_cases ⟨3, 0, 3⟩ 5 10).2.1 (by decide),
   (update_segment_counters_update_to_cases ⟨8, 0, 8⟩ 2 10).2.2 (by decide)⟩

/-- C3: increment on state (cur_idx, cur_gen, cur_abs) with ring size
max_segments: if cur_idx + 1 >= max_segments the committed state is
(0, cur_gen + 1, cur_abs + 1), otherwise (cur_idx + 1, cur_gen, cur_abs + 1);
in both cases absolute_segments increases by exactly 1. -/
theorem increment_segment_index_cases (st : CameraState) (m : Int) :
    (m ≤ st.segment_index + 1 →
      increment_segment_index st m =
        ({ segment_index := 0
           segment_generation := st.segment_generation + 1
           absolute_segments := st.absolute_segments + 1 }, 0)) ∧
    (st.segment_index + 1 < m →
      increment_segment_index st m =
        ({ segment_index := st.segment_index + 1
           segment_generation := st.segment_generation
           absolute_segments := st.absolute_segments + 1 },
         st.segment_index + 1)) ∧
    (increment_segment_index st m).1.absolute_segments =
      st.absolute_segments + 1 := by
  refine ⟨fun h => ?_, fun h => ?_, ?_⟩
  · simp [increment_segment_index, h]
  · have hnot : ¬ st.segment_index + 1 ≥ m := not_le_of_gt h
    simp [increment_segment_index, hnot]
  · by_cases h : st.segment_index + 1 ≥ m <;> simp [increment_segment_index, h]

/-- Witness for C3: a wrapping and a non-wrapping increment. -/
theorem increment_segment_index_cases_witness :
    increment_segment_index ⟨9, 0, 9⟩ 10 = (⟨0, 1, 10⟩, 0) ∧
    increment_segment_index ⟨4, 0, 4⟩ 10 = (⟨5, 0, 5⟩, 5) :=
  ⟨(increment_segment_index_cases ⟨9, 0, 9⟩ 10).1 (by decide),
   (increment_segment_index_cases ⟨4, 0, 4⟩ 10).2.1 (by decide)⟩

/-- C7: clamp sets segment_index to segment_index mod max_segments (SQLite's
truncating remainder, which agrees with the mathematical mod on the
non-negative states the system produces), leaves segment_generation and
absolute_segments unchanged, and is idempotent. -/
theorem clamp_segment_index_props (st : CameraState) (m : Int) :
    (clamp_segment_index st m).segment_index = st.segment_index.tmod m ∧
    (clamp_segment_index st m).segment_generation = st.segment_generation ∧
    (clamp_segment_index st m).absolute_segments = st.absolute_segments ∧
    (0 ≤ st.segment_index → 0 ≤ m →
      (clamp_segment_index st m).segment_index = st.segment_index % m) ∧
    clamp_segment_index (clamp_segment_index st m) m =
      clamp_segment_index st m := by
  refine ⟨rfl, rfl, rfl, fun h1 h2 => Int.tmod_eq_emod h1 h2, ?_⟩
  simp [clamp_segment_index, tmod_tmod_self]

/-- Witness for C7 at a concrete state. -/
theorem clamp_segment_index_props_witness :
    (clamp_segment_index ⟨13, 2, 25⟩ 10).segment_index = Int.tmod 13 10 ∧
    (clamp_segment_index ⟨13, 2, 25⟩ 10).segment_generation = 2 ∧
    (clamp_segment_index ⟨13, 2, 25⟩ 10).absolute_segments = 25 ∧
    (clamp_segment_index ⟨13, 2, 25⟩ 10).segment_index = 13 % 10 ∧
    clamp_segment_index (clamp_segment_index ⟨13, 2, 25⟩ 10) 10 =
      clamp_segment_index ⟨13, 2, 25⟩ 10 := by
  obtain ⟨h1, h2, h3, h4, h5⟩ := clamp_segment_index_props ⟨13, 2, 25⟩ 10
  exact ⟨h1, h2, h3, h4 (by decide) (by decide), h5⟩

/-- C9: update_segment_counters performs no range validation: the committed
segment_index equals the given new_segment_index verbatim, for every input
(in particular for inputs at or above max_segments and for negative inputs),
so the ring bound holds only if callers supply an in-range index. -/
theorem update_segment_counters_no_validation (st : CameraState)
    (n m : Int) :
    (update_segment_counters st n m).segment_index = n := by
  by_cases h : n = st.segment_index
  · simp [update_segment_counters, h]
  · simp [update_segment_counters, h]

/-- A DB Actor message affecting the ring counters of one (camera, sink)
binding, as dispatched by the worker loop in src/db_worker.rs: SegmentUpdate
calls update_segment_counters, increment calls increment_segment_index, and
ClampSegmentIndex calls clamp_segment_index. -/
inductive ActorOp where
  | segmentUpdate (new_segment_index : Int)
  | increment
  | clamp
deriving DecidableEq, Repr

/-- Effect of one committed actor operation on the binding's counters. -/
def applyActorOp (max_segments : Int) (st : CameraState) : ActorOp → CameraState
  | .segmentUpdate n => update_segment_counters st n max_segments
  | .increment => (increment_segment_index st max_segments).1
  | .clamp => clamp_segment_index st max_segments

/-- Legality of an actor operation: a SegmentUpdate is legal when the producer
reports a ring index in range (the naming service always sends
(current + 1) mod max_segments); increment and clamp are always legal. -/
def legalActorOp (max_segments : Int) : ActorOp → Bool
  | .segmentUpdate n => decide (0 ≤ n) && decide (n < max_segments)
  | .increment => true
  | .clamp => true

/-- Run a sequence of actor operations on a binding's counters. -/
def runActorOps (max_segments : Int) (st : CameraState) :
    List ActorOp → CameraState
  | [] => st
  | op :: rest => runActorOps max_segments (applyActorOp max_segments st op) rest

/-- The ring bound on a counter state. -/
def InRing (max_segments : Int) (st : CameraState) : Prop :=
  0 ≤ st.segment_index ∧ st.segment_index < max_segments

theorem runActorOps_append (m : Int) (st : CameraState)
    (l1 l2 : List ActorOp) :
    runActorOps m st (l1 ++ l2) = runActorOps m (runActorOps m st l1) l2 := by
  induction l1 generalizing st with
  | nil => rfl
  | cons op rest ih => simp [runActorOps, ih]

theorem actorOp_step (m : Int) (hm : 1 ≤ m) (st : CameraState) (op : ActorOp)
    (hst : InRing m st) (hop : legalActorOp m op = true) :
    InRing m (applyActorOp m st op) ∧
    st.absolute_segments ≤ (applyActorOp m st op).absolute_segments := by
  obtain ⟨h0, hlt⟩ := hst
  cases op with
  | segmentUpdate n =>
    simp only [legalActorOp, Bool.and_eq_true, decide_eq_true_eq] at hop
    obtain ⟨hn0, hnm⟩ := hop
    by_cases heq : n = st.segment_index
    · simp [applyActorOp, update_segment_counters, heq, InRing]
      omega
    · by_cases hw : n < st.segment_index
      · simp [applyActorOp, update_segment_counters, heq, hw, InRing]
        omega
      · simp [applyActorOp, update_segment_counters, heq, hw, InRing]
        omega
  | increment =>
    by_cases h : st.segment_index + 1 ≥ m
    · simp [applyActorOp, increment_segment_index, h, InRing]
      omega
    · simp [applyActorOp, increment_segment_index, h, InRing]
      omega
  | clamp =>
    have htm : Int.tmod st.segment_index m = st.segment_index :=
      Int.tmod_eq_of_lt h0 hlt
    simp [applyActorOp, clamp_segment_index, InRing, htm]
    omega

theorem runActorOps_preserves (m : Int) (hm : 1 ≤ m) (st : CameraState)
    (ops : List ActorOp) (hst : InRing m st)
    (hleg : ∀ op ∈ ops, legalActorOp m op = true) :
    InRing m (runActorOps m st ops) ∧
    st.absolute_segments ≤ (runActorOps m st ops).absolute_segments := by
  induction ops generalizing st with
  | nil => exact ⟨hst, le_refl _⟩
  | cons op rest ih =>
    have hop : legalActorOp m op = true := hleg op (List.mem_cons_self op rest)
    have hstep := actorOp_step m hm st op hst hop
    have hrest := ih (applyActorOp m st op) hstep.1
      (fun o ho => hleg o (List.mem_cons_of_mem op ho))
    exact ⟨hrest.1, le_trans hstep.2 hrest.2⟩

/-- C4: for every legal sequence of DB actor operations (SegmentUpdate with an
in-range index, increment, clamp) on a binding with ring size
max_segments >= 1, starting from the fresh state (0, 0, 0): after every
committed operation 0 <= segment_index < max_segments holds, and
absolute_segments never decreases from one committed operation to the next. -/
theorem db_actor_sequence_invariant (m : Int) (ops : List ActorOp)
    (hm : 1 ≤ m) (hleg : ∀ op ∈ ops, legalActorOp m op = true) :
    (∀ pre suf, ops = pre ++ suf →
      0 ≤ (runActorOps m ⟨0, 0, 0⟩ pre).segment_index ∧
      (runActorOps m ⟨0, 0, 0⟩ pre).segment_index < m) ∧
    (∀ pre op suf, ops = pre ++ op :: suf →
      (runActorOps m ⟨0, 0, 0⟩ pre).absolute_segments ≤
        (runActorOps m ⟨0, 0, 0⟩ (pre ++ [op])).absolute_segments) := by
  have hfresh : InRing m ⟨0, 0, 0⟩ := ⟨le_refl 0, hm⟩
  constructor
  · intro pre suf hsplit
    have hlegpre : ∀ op ∈ pre, legalActorOp m op = true := by
      intro o ho
      exact hleg o (hsplit ▸ List.mem_append_left suf ho)
    exact (runActorOps_preserves m hm ⟨0, 0, 0⟩ pre hfresh hlegpre).1
  · intro pre op suf hsplit
    have hlegpre : ∀ o ∈ pre, legalActorOp m o = true := by
      intro o ho
      exact hleg o (hsplit ▸ List.mem_append_left (op :: suf) ho)
    have hopleg : legalActorOp m op = true := by
      refine hleg op (hsplit ▸ List.mem_append_right pre ?_)
      exact List.mem_cons_self op suf
    have hpre := runActorOps_preserves m hm ⟨0, 0, 0⟩ pre hfresh hlegpre
    rw [runActorOps_append]
    exact (actorOp_step m hm _ op hpre.1 hopleg).2

/-- Witness for C4: a concrete legal sequence on a ring of size 3,
instantiated after the second committed operation. -/
theorem db_actor_sequence_invariant_witness :
    (0 ≤ (runActorOps 3 ⟨0, 0, 0⟩
        [ActorOp.increment, ActorOp.increment]).segment_index ∧
      (runActorOps 3 ⟨0, 0, 0⟩
        [ActorOp.increment, ActorOp.increment]).segment_index < 3) ∧
    (runActorOps 3 ⟨0, 0, 0⟩
        [ActorOp.increment, ActorOp.increment]).absolute_segments ≤
      (runActorOps 3 ⟨0, 0, 0⟩
        ([ActorOp.increment, ActorOp.increment] ++
          [ActorOp.segmentUpdate 0])).absolute_segments :=
  ⟨(db_actor_sequence_invariant 3
      [ActorOp.increment, ActorOp.increment, ActorOp.segmentUpdate 0,
        ActorOp.clamp] (by decide) (by decide)).1
      [ActorOp.increment, ActorOp.increment] [ActorOp.segmentUpdate 0,
        ActorOp.clamp] rfl,
   (db_actor_sequence_invariant 3
      [ActorOp.increment, ActorOp.increment, ActorOp.segmentUpdate 0,
        ActorOp.clamp] (by decide) (by decide)).2
      [ActorOp.increment, ActorOp.increment] (ActorOp.segmentUpdate 0)
      [ActorOp.clamp] rfl⟩


/-- One row of the trips table, as read and written by the trip ledger in
src/db.rs (the Rust Trip struct plus the camera_id column the SQL filters
on). -/
structure Trip where
  id : Int
  camera_id : Int
  boot_id : String
  start_time_utc : Int
  end_time_utc : Option Int
  start_segment : Int
  final_segment : Option Int
  start_clock_source : Option String
  end_clock_source : Option String
  note : Option String
  start_gen : Int
  end_gen : Option Int
  fully_evicted : Bool
  evicted_at_utc : Option Int
deriving DecidableEq, Repr

/-- One row of the saved_trips table (src/db.rs, save_trip_and_start_new). -/
structure SavedTrip where
  trip_id : Int
  saved_dir : String
  saved_at_utc : Int
deriving DecidableEq, Repr

/-- The database state visible to the trip ledger of src/db.rs: the trips and
saved_trips tables as lists of rows, the next SQLite rowid to be assigned to
an inserted trip, and the camera_state row of each camera (the trip ledger
only reads camera_state, never writes it). -/
structure Db where
  trips : List Trip
  saved_trips : List SavedTrip
  next_id : Int
  state : Int → CameraState

/-- The WHERE clause "final_segment IS NULL AND camera_id = ?" shared by the
open-trip queries in src/db.rs. -/
def isOpenFor (camera_id : Int) (t : Trip) : Bool :=
  t.final_segment.isNone && decide (t.camera_id = camera_id)

/-- Effect on one trips row of the UPDATE
"SET final_segment = ?, end_time_utc = ?, end_clock_source = 'boot',
end_gen = ?" issued by finalize_open_trip, new_trip and
save_trip_and_start_new in src/db.rs. -/
def closeRow (final_seg now cur_gen : Int) (t : Trip) : Trip :=
  { t with
    final_segment := some final_seg
    end_time_utc := some now
    end_clock_source := some "boot"
    end_gen := some cur_gen }

/-- The trips row written by the INSERT
"INSERT INTO trips(camera_id, boot_id, start_time_utc, start_segment,
start_clock_source, start_gen) VALUES(?, ?, ?, ?, 'boot', ?)" of src/db.rs,
with the freshly assigned rowid. -/
def newTripRow (id camera_id : Int) (boot_id : String)
    (now start_segment start_gen : Int) : Trip :=
  { id := id
    camera_id := camera_id
    boot_id := boot_id
    start_time_utc := now
    end_time_utc := none
    start_segment := start_segment
    final_segment := none
    start_clock_source := some "boot"
    end_clock_source := none
    note := none
    start_gen := start_gen
    end_gen := none
    fully_evicted := false
    evicted_at_utc := none }

/-- Accumulator step realising "ORDER BY id DESC LIMIT 1": keep the row with
the larger id. -/
def pickNewer (acc : Option Trip) (t : Trip) : Option Trip :=
  match acc with
  | none => some t
  | some b => if b.id < t.id then some t else some b

/-- Embedding of DashcamDb::fetch_open_trip (src/db.rs lines 376-408): the
open trip of the camera with the largest id, if any.  The same
"SELECT ... WHERE final_segment IS NULL AND camera_id = ? ORDER BY id DESC
LIMIT 1" query is issued inside new_trip and save_trip_and_start_new. -/
def fetch_open_trip (db : Db) (camera_id : Int) : Option Trip :=
  (db.trips.filter (isOpenFor camera_id)).foldl pickNewer none

/-- Embedding of DashcamDb::insert_trip (src/db.rs lines 428-458): insert an
open trip with the camera's current generation; wall clock and boot id are
passed in as parameters. -/
def insert_trip (db : Db) (camera_id : Int) (start_segment : Int)
    (now : Int) (boot_id : String) : Db × Trip :=
  let start_gen := (db.state camera_id).segment_generation
  let t := newTripRow db.next_id camera_id boot_id now start_segment start_gen
  ({ db with trips := db.trips ++ [t], next_id := db.next_id + 1 }, t)

/-- Embedding of DashcamDb::finalize_open_trip (src/db.rs lines 411-426): the
UPDATE has no LIMIT, so it closes every open trip of the camera using the
camera's current generation as end_gen. -/
def finalize_open_trip (db : Db) (camera_id : Int)
    (end_segment_inclusive : Int) (now : Int) : Db :=
  let cur_gen := (db.state camera_id).segment_generation
  { db with
    trips := db.trips.map (fun t =>
      if isOpenFor camera_id t then closeRow end_segment_inclusive now cur_gen t
      else t) }

/-- Embedding of DashcamDb::new_trip (src/db.rs lines 464-530): in one
transaction, read the camera's (index, generation); if an open trip exists
and current - 1 is at or past its start_segment, close it (the UPDATE is
keyed on that trip's id and re-checks final_segment IS NULL); unconditionally
insert a new open trip starting at the current index.  Returns the inserted
trip. -/
def new_trip (db : Db) (camera_id : Int) (now : Int) (boot_id : String) :
    Db × Trip :=
  let current := (db.state camera_id).segment_index
  let cur_gen := (db.state camera_id).segment_generation
  let db1 :=
    match fetch_open_trip db camera_id with
    | none => db
    | some open_trip =>
      let end_seg := current - 1
      if open_trip.start_segment ≤ end_seg then
        { db with
          trips := db.trips.map (fun (t : Trip) =>
            if decide (t.id = open_trip.id) && t.final_segment.isNone then
              closeRow end_seg now cur_gen t
            else t) }
      else db
  let new_t := newTripRow db1.next_id camera_id boot_id now current cur_gen
  ({ db1 with trips := db1.trips ++ [new_t], next_id := db1.next_id + 1 }, new_t)

/-- Embedding of DashcamDb::save_trip_and_start_new (src/db.rs lines
538-615): like new_trip, but the fetched (id, start_segment) defaults to
(0, current) when no open trip exists, and when a close actually happens a
saved_trips row is inserted in the same transaction.  Returns
(updated db, new trip, closed_id, closed_start, closed_end). -/
def save_trip_and_start_new (db : Db) (camera_id : Int) (saved_dir : String)
    (now : Int) (boot_id : String) : Db × Trip × Int × Int × Int :=
  let current := (db.state camera_id).segment_index
  let cur_gen := (db.state camera_id).segment_generation
  let closed : Int × Int :=
    match fetch_open_trip db camera_id with
    | none => (0, current)
    | some t => (t.id, t.start_segment)
  let closed_id := closed.1
  let closed_start := closed.2
  let closed_end := current - 1
  let db1 :=
    if closed_id ≠ 0 ∧ closed_start ≤ closed_end then
      { db with
        trips := db.trips.map (fun (t : Trip) =>
          if decide (t.id = closed_id) && t.final_segment.isNone then
            closeRow closed_end now cur_gen t
          else t)
        saved_trips := db.saved_trips ++
          [{ trip_id := closed_id, saved_dir := saved_dir, saved_at_utc := now }] }
    else db
  let new_t := newTripRow db1.next_id camera_id boot_id now current cur_gen
  ({ db1 with trips := db1.trips ++ [new_t], next_id := db1.next_id + 1 },
   new_t, closed_id, closed_start, closed_end)

/-- Effect on one trips row of the eviction UPDATE
"SET fully_evicted = 1, evicted_at_utc = now" of src/db.rs. -/
def stampRow (now : Int) (t : Trip) : Trip :=
  { t with fully_evicted := true, evicted_at_utc := some now }

/-- The WHERE clause of the eviction UPDATE in
DashcamDb::mark_fully_evicted_trips (src/db.rs lines 359-368):
"fully_evicted = 0 AND camera_id = ? AND final_segment IS NOT NULL AND
(COALESCE(end_gen, start_gen) * max + final_segment) < abs_earliest". -/
def evictionStampCond (camera_id max_segments abs_earliest : Int)
    (t : Trip) : Bool :=
  !t.fully_evicted && decide (t.camera_id = camera_id) &&
    (match t.final_segment with
     | none => false
     | some fs =>
        decide ((t.end_gen.getD t.start_gen) * max_segments + fs < abs_earliest))

/-- Embedding of DashcamDb::mark_fully_evicted_trips (src/db.rs lines
345-372): abs_earliest = max(abs_latest - (max_segments - 1), 0); every trip
matching the WHERE clause is stamped fully_evicted with evicted_at_utc = now;
returns the number of rows updated. -/
def mark_fully_evicted_trips (db : Db) (camera_id : Int)
    (max_segments : Int) (now : Int) : Db × Nat :=
  let abs_latest := (db.state camera_id).absolute_segments
  let abs_earliest := max (abs_latest - (max_segments - 1)) 0
  let cond := evictionStampCond camera_id max_segments abs_earliest
  let count := (db.trips.filter cond).length
  ({ db with
     trips := db.trips.map (fun t => if cond t then stampRow now t else t) },
   count)

/-- Number of open trips of a camera ("rows with final_segment IS NULL"). -/
def openCount (db : Db) (camera_id : Int) : Nat :=
  db.trips.countP (isOpenFor camera_id)

/-- Well-formedness of the rowid bookkeeping: SQLite assigns positive rowids
below the next free one. -/
def wfDb (db : Db) : Bool :=
  decide (1 ≤ db.next_id) &&
    db.trips.all (fun t => decide (1 ≤ t.id) && decide (t.id < db.next_id))

theorem isOpenFor_closeRow (d e now g : Int) (t : Trip) :
    isOpenFor d (closeRow e now g t) = false := by
  simp [isOpenFor, closeRow]

theorem closeRow_id (e now g : Int) (t : Trip) :
    (closeRow e now g t).id = t.id := rfl

theorem isOpenFor_newTripRow (d id c : Int) (boot : String) (now s g : Int) :
    isOpenFor d (newTripRow id c boot now s g) = decide (c = d) := by
  simp [isOpenFor, newTripRow]

theorem foldl_pickNewer_isSome (l : List Trip) (b : Trip) :
    (l.foldl pickNewer (some b)).isSome = true := by
  induction l generalizing b with
  | nil => rfl
  | cons x xs ih =>
    simp only [List.foldl_cons, pickNewer]
    by_cases h : b.id < x.id
    · simpa [h] using ih x
    · simpa [h] using ih b

theorem foldl_pickNewer_eq_none (l : List Trip) :
    l.foldl pickNewer none = none ↔ l = [] := by
  constructor
  · intro h
    cases l with
    | nil => rfl
    | cons x xs =>
      exfalso
      have hs := foldl_pickNewer_isSome xs x
      have hx : xs.foldl pickNewer (pickNewer none x) = none := h
      simp only [pickNewer] at hx
      rw [hx] at hs
      simp at hs
  · intro h
    subst h
    rfl

theorem foldl_pickNewer_spec (l : List Trip) :
    ∀ (acc : Option Trip) (t : Trip), l.foldl pickNewer acc = some t →
      (acc = some t ∨ t ∈ l) ∧
      (∀ u ∈ l, u.id ≤ t.id) ∧
      (∀ b, acc = some b → b.id ≤ t.id) := by
  induction l with
  | nil =>
    intro acc t h
    refine ⟨Or.inl h, by simp, ?_⟩
    intro b hb
    rw [hb] at h
    cases h
    exact le_refl _
  | cons x xs ih =>
    intro acc t h
    have hstep : xs.foldl pickNewer (pickNewer acc x) = some t := h
    obtain ⟨hmem, hall, hacc⟩ := ih (pickNewer acc x) t hstep
    have hx_le : x.id ≤ t.id := by
      cases acc with
      | none => exact hacc x rfl
      | some b =>
        by_cases hb : b.id < x.id
        · exact hacc x (by simp [pickNewer, hb])
        · have hbt := hacc b (by simp [pickNewer, hb])
          omega
    refine ⟨?_, ?_, ?_⟩
    · cases acc with
      | none =>
        cases hmem with
        | inl h' =>
          simp only [pickNewer] at h'
          cases h'
          exact Or.inr (List.mem_cons_self _ _)
        | inr h' => exact Or.inr (List.mem_cons_of_mem _ h')
      | some b =>
        cases hmem with
        | inl h' =>
          simp only [pickNewer] at h'
          by_cases hb : b.id < x.id
          · rw [if_pos hb] at h'
            cases h'
            exact Or.inr (List.mem_cons_self _ _)
          · rw [if_neg hb] at h'
            exact Or.inl h'
        | inr h' => exact Or.inr (List.mem_cons_of_mem _ h')
    · intro u hu
      cases hu with
      | head => exact hx_le
      | tail _ hu' => exact hall u hu'
    · intro b hb
      subst hb
      by_cases hlt : b.id < x.id
      · omega
      · exact hacc b (by simp [pickNewer, hlt])

theorem fetch_open_trip_some_spec (db : Db) (c : Int) (t : Trip)
    (h : fetch_open_trip db c = some t) :
    t ∈ db.trips ∧ isOpenFor c t = true ∧
    ∀ u ∈ db.trips, isOpenFor c u = true → u.id ≤ t.id := by
  obtain ⟨hmem, hall, _⟩ :=
    foldl_pickNewer_spec (db.trips.filter (isOpenFor c)) none t h
  have ht : t ∈ db.trips.filter (isOpenFor c) := by
    cases hmem with
    | inl h' => cases h'
    | inr h' => exact h'
  rw [List.mem_filter] at ht
  exact ⟨ht.1, ht.2,
    fun u hu hou => hall u (List.mem_filter.mpr ⟨hu, hou⟩)⟩

theorem fetch_open_trip_none_spec (db : Db) (c : Int)
    (h : fetch_open_trip db c = none) :
    ∀ u ∈ db.trips, isOpenFor c u = false := by
  have hnil : db.trips.filter (isOpenFor c) = [] :=
    (foldl_pickNewer_eq_none _).1 h
  intro u hu
  by_contra hne
  have hopen : isOpenFor c u = true := by
    cases hop : isOpenFor c u with
    | false => exact absurd hop hne
    | true => rfl
  have : u ∈ db.trips.filter (isOpenFor c) :=
    List.mem_filter.mpr ⟨hu, hopen⟩
  rw [hnil] at this
  cases this

/-- C10: fetch_open_trip returns the open trip of the camera with the largest
id (the most recently inserted), and new_trip and save_trip_and_start_new
close only that newest open trip: every other trip row of the database is
carried over unchanged (in particular an older open trip stays open); if no
open trip exists, fetch_open_trip returns none. -/
theorem fetch_open_trip_returns_newest (db : Db) (c now : Int)
    (boot dir : String) :
    (∀ t, fetch_open_trip db c = some t →
      t ∈ db.trips ∧ isOpenFor c t = true ∧
      (∀ u ∈ db.trips, isOpenFor c u = true → u.id ≤ t.id) ∧
      (∀ u ∈ db.trips, u.id ≠ t.id →
        u ∈ (new_trip db c now boot).1.trips ∧
        u ∈ (save_trip_and_start_new db c dir now boot).1.trips)) ∧
    (fetch_open_trip db c = none → ∀ u ∈ db.trips, isOpenFor c u = false) := by
  refine ⟨?_, fetch_open_trip_none_spec db c⟩
  intro t h
  obtain ⟨ht, hopen, hmax⟩ := fetch_open_trip_some_spec db c t h
  refine ⟨ht, hopen, hmax, ?_⟩
  intro u hu hne
  constructor
  · simp only [new_trip, h]
    by_cases hb : t.start_segment ≤ (db.state c).segment_index - 1
    · simp only [if_pos hb]
      exact List.mem_append_left _
        (List.mem_map.mpr ⟨u, hu, by simp [hne]⟩)
    · simp only [if_neg hb]
      exact List.mem_append_left _ hu
  · simp only [save_trip_and_start_new, h]
    by_cases hc : t.id ≠ 0 ∧ t.start_segment ≤ (db.state c).segment_index - 1
    · simp only [if_pos hc]
      exact List.mem_append_left _
        (List.mem_map.mpr ⟨u, hu, by simp [hne]⟩)
    · simp only [if_neg hc]
      exact List.mem_append_left _ hu

/-- Witness for C10: two open trips for camera 1; fetch selects the one with
id 2, the id-1 trip has a smaller id and survives a new_trip and a
save_trip_and_start_new. -/
theorem fetch_open_trip_returns_newest_witness :
    (Trip.mk 2 1 "b" 0 none 4 none (some "boot") none none 0 none false none) ∈
      (Db.mk
      [Trip.mk 1 1 "b" 0 none 0 none (some "boot") none none 0 none false none,
       Trip.mk 2 1 "b" 0 none 4 none (some "boot") none none 0 none false none]
      [] 3 (fun _ => ⟨5, 0, 5⟩)).trips ∧
    isOpenFor 1
      (Trip.mk 2 1 "b" 0 none 4 none (some "boot") none none 0 none false none) = true ∧
    (Trip.mk 1 1 "b" 0 none 0 none (some "boot") none none 0 none false none).id ≤
      (Trip.mk 2 1 "b" 0 none 4 none (some "boot") none none 0 none false none).id ∧
    (Trip.mk 1 1 "b" 0 none 0 none (some "boot") none none 0 none false none) ∈
      (new_trip (Db.mk
      [Trip.mk 1 1 "b" 0 none 0 none (some "boot") none none 0 none false none,
       Trip.mk 2 1 "b" 0 none 4 none (some "boot") none none 0 none false none]
      [] 3 (fun _ => ⟨5, 0, 5⟩)) 1 7 "b").1.trips ∧
    (Trip.mk 1 1 "b" 0 none 0 none (some "boot") none none 0 none false none) ∈
      (save_trip_and_start_new (Db.mk
      [Trip.mk 1 1 "b" 0 none 0 none (some "boot") none none 0 none false none,
       Trip.mk 2 1 "b" 0 none 4 none (some "boot") none none 0 none false none]
      [] 3 (fun _ => ⟨5, 0, 5⟩)) 1 "d" 7 "b").1.trips := by
  obtain ⟨h1, h2, h3, h4⟩ :=
    (fetch_open_trip_returns_newest (Db.mk
      [Trip.mk 1 1 "b" 0 none 0 none (some "boot") none none 0 none false none,
       Trip.mk 2 1 "b" 0 none 4 none (some "boot") none none 0 none false none]
      [] 3 (fun _ => ⟨5, 0, 5⟩)) 1 7 "b" "d").1
    (Trip.mk 2 1 "b" 0 none 4 none (some "boot") none none 0 none false none) rfl
  have hmem : (Trip.mk 1 1 "b" 0 none 0 none (some "boot") none none 0 none false none) ∈
      (Db.mk
      [Trip.mk 1 1 "b" 0 none 0 none (some "boot") none none 0 none false none,
       Trip.mk 2 1 "b" 0 none 4 none (some "boot") none none 0 none false none]
      [] 3 (fun _ => ⟨5, 0, 5⟩)).trips := List.mem_cons_self _ _
  have hne : (Trip.mk 1 1 "b" 0 none 0 none (some "boot") none none 0 none false none).id ≠
      (Trip.mk 2 1 "b" 0 none 4 none (some "boot") none none 0 none false none).id := by decide
  obtain ⟨h5, h6⟩ := h4 (Trip.mk 1 1 "b" 0 none 0 none (some "boot") none none 0 none false none) hmem hne
  exact ⟨h1, h2, h3 (Trip.mk 1 1 "b" 0 none 0 none (some "boot") none none 0 none false none) hmem rfl, h5, h6⟩
/-- A trip-ledger operation as invoked through the DB layer of src/db.rs;
wall-clock and boot-id inputs are carried in the operation. -/
inductive TripOp where
  | insertTrip (camera_id start_segment now : Int) (boot_id : String)
  | finalizeOpenTrip (camera_id end_segment_inclusive now : Int)
  | newTrip (camera_id now : Int) (boot_id : String)
  | saveTripAndStartNew (camera_id : Int) (saved_dir : String) (now : Int)
      (boot_id : String)

/-- Database effect of one committed trip-ledger operation. -/
def applyTripOp (db : Db) : TripOp → Db
  | .insertTrip c s now boot => (insert_trip db c s now boot).1
  | .finalizeOpenTrip c e now => finalize_open_trip db c e now
  | .newTrip c now boot => (new_trip db c now boot).1
  | .saveTripAndStartNew c dir now boot =>
      (save_trip_and_start_new db c dir now boot).1

/-- Preconditions under which the trip ledger is driven by the service:
insert_trip is only issued when the camera has no open trip, and the
close-then-open operations only when every open trip of the camera started
strictly before the ring's current index.  finalize_open_trip is always
legal. -/
def legalTripOp (db : Db) : TripOp → Bool
  | .insertTrip c _ _ _ => openCount db c == 0
  | .finalizeOpenTrip _ _ _ => true
  | .newTrip c _ _ =>
      db.trips.all (fun t => !(isOpenFor c t) ||
        decide (t.start_segment < (db.state c).segment_index))
  | .saveTripAndStartNew c _ _ _ =>
      db.trips.all (fun t => !(isOpenFor c t) ||
        decide (t.start_segment < (db.state c).segment_index))

/-- Legality of a sequence of trip-ledger operations, each judged in the
database state it executes in. -/
def legalTripSeq (db : Db) : List TripOp → Bool
  | [] => true
  | op :: rest => legalTripOp db op && legalTripSeq (applyTripOp db op) rest

/-- Run a sequence of trip-ledger operations. -/
def runTripOps (db : Db) : List TripOp → Db
  | [] => db
  | op :: rest => runTripOps (applyTripOp db op) rest

theorem runTripOps_append (db : Db) (l1 l2 : List TripOp) :
    runTripOps db (l1 ++ l2) = runTripOps (runTripOps db l1) l2 := by
  induction l1 generalizing db with
  | nil => rfl
  | cons op rest ih => simp [runTripOps, ih]

theorem legalTripSeq_append (db : Db) (l1 l2 : List TripOp)
    (h : legalTripSeq db (l1 ++ l2) = true) :
    legalTripSeq db l1 = true ∧
    legalTripSeq (runTripOps db l1) l2 = true := by
  induction l1 generalizing db with
  | nil => exact ⟨rfl, h⟩
  | cons op rest ih =>
    simp only [List.cons_append, legalTripSeq, Bool.and_eq_true] at h
    obtain ⟨hop, hrest⟩ := h
    obtain ⟨h1, h2⟩ := ih (applyTripOp db op) hrest
    exact ⟨by simp [legalTripSeq, hop, h1], h2⟩

/-- The combined inductive invariant of the trip ledger: rowids are
well-formed and every camera has at most one open trip. -/
def TripInv (db : Db) : Prop :=
  wfDb db = true ∧ ∀ c, openCount db c ≤ 1

theorem mem_singleton_of_length_le_one {α : Type} {l : List α}
    (h : l.length ≤ 1) {a b : α} (ha : a ∈ l) (hb : b ∈ l) : a = b := by
  cases l with
  | nil => cases ha
  | cons x xs =>
    cases xs with
    | nil =>
      rw [List.mem_singleton] at ha hb
      rw [ha, hb]
    | cons y ys => simp at h

theorem wfDb_trips_ext (l : List Trip) (sv : List SavedTrip) (nid : Int)
    (st : Int → CameraState) (db : Db) (hwf : wfDb db = true)
    (hnid : nid = db.next_id)
    (hl : ∀ u ∈ l, ∃ v ∈ db.trips, u.id = v.id) :
    wfDb (Db.mk l sv nid st) = true := by
  simp only [wfDb, Bool.and_eq_true, decide_eq_true_eq, List.all_eq_true] at *
  subst hnid
  refine ⟨hwf.1, ?_⟩
  intro u hu
  obtain ⟨v, hv, hid⟩ := hl u hu
  have := hwf.2 v hv
  omega

theorem wfDb_append_new (l : List Trip) (sv : List SavedTrip) (t : Trip)
    (st : Int → CameraState) (db : Db) (hwf : wfDb db = true)
    (ht : t.id = db.next_id)
    (hl : ∀ u ∈ l, ∃ v ∈ db.trips, u.id = v.id) :
    wfDb (Db.mk (l ++ [t]) sv (db.next_id + 1) st) = true := by
  simp only [wfDb, Bool.and_eq_true, decide_eq_true_eq, List.all_eq_true] at *
  constructor
  · omega
  · intro u hu
    rw [List.mem_append] at hu
    cases hu with
    | inl h' =>
      obtain ⟨v, hv, hid⟩ := hl u h'
      have := hwf.2 v hv
      omega
    | inr h' =>
      rw [List.mem_singleton] at h'
      subst h'
      omega

theorem countP_append_single (l : List Trip) (p : Trip → Bool) (t : Trip) :
    (l ++ [t]).countP p = l.countP p + (if p t then 1 else 0) := by
  rw [List.countP_append]
  simp [List.countP_cons]

theorem isOpenFor_keyedClose_imp (d e now g key : Int) (u : Trip)
    (h : isOpenFor d (if decide (u.id = key) && u.final_segment.isNone then
      closeRow e now g u else u) = true) : isOpenFor d u = true := by
  by_cases hcl : (decide (u.id = key) && u.final_segment.isNone) = true
  · rw [if_pos hcl, isOpenFor_closeRow] at h
    cases h
  · rwa [if_neg hcl] at h

theorem isOpenFor_keyedClose_false (c e now g key : Int) (u : Trip)
    (hkey : isOpenFor c u = true → u.id = key) :
    isOpenFor c (if decide (u.id = key) && u.final_segment.isNone then
      closeRow e now g u else u) = false := by
  by_cases hcl : (decide (u.id = key) && u.final_segment.isNone) = true
  · rw [if_pos hcl]
    exact isOpenFor_closeRow c e now g u
  · rw [if_neg hcl]
    cases hou : isOpenFor c u with
    | false => rfl
    | true =>
      exfalso
      apply hcl
      have hid := hkey hou
      have hfin : u.final_segment.isNone = true := by
        simp only [isOpenFor, Bool.and_eq_true] at hou
        exact hou.1
      simp [hid, hfin]

theorem countP_keyedClose_le (l : List Trip) (d key e now g : Int) :
    (l.map (fun (u : Trip) =>
      if decide (u.id = key) && u.final_segment.isNone then closeRow e now g u
      else u)).countP (isOpenFor d) ≤ l.countP (isOpenFor d) := by
  rw [List.countP_map]
  exact List.countP_mono_left
    (fun u _ hu => isOpenFor_keyedClose_imp d e now g key u hu)

theorem countP_keyedClose_zero (l : List Trip) (c key e now g : Int)
    (h : ∀ u ∈ l, isOpenFor c u = true → u.id = key) :
    (l.map (fun (u : Trip) =>
      if decide (u.id = key) && u.final_segment.isNone then closeRow e now g u
      else u)).countP (isOpenFor c) = 0 := by
  rw [List.countP_map, List.countP_eq_zero]
  intro u hu
  intro hcontra
  have hc2 : isOpenFor c (if decide (u.id = key) && u.final_segment.isNone then
      closeRow e now g u else u) = true := hcontra
  rw [isOpenFor_keyedClose_false c e now g key u (h u hu)] at hc2
  cases hc2

theorem tripOp_step (db : Db) (op : TripOp) (hinv : TripInv db)
    (hleg : legalTripOp db op = true) : TripInv (applyTripOp db op) := by
  obtain ⟨hwf, hopen⟩ := hinv
  cases op with
  | insertTrip c s now boot =>
    have hc0 : openCount db c = 0 := by
      simpa [legalTripOp] using hleg
    simp only [applyTripOp, insert_trip]
    constructor
    · exact wfDb_append_new db.trips db.saved_trips _ db.state db hwf rfl
        (fun u hu => ⟨u, hu, rfl⟩)
    · intro d
      simp only [openCount]
      rw [countP_append_single, isOpenFor_newTripRow]
      by_cases hdc : c = d
      · have hz : db.trips.countP (isOpenFor d) = 0 := by
          rw [← hdc]
          exact hc0
        simp [hdc, hz]
      · have hle := hopen d
        simp only [openCount] at hle
        simp [hdc]
        omega
  | finalizeOpenTrip c e now =>
    simp only [applyTripOp, finalize_open_trip]
    constructor
    · refine wfDb_trips_ext _ db.saved_trips _ db.state db hwf rfl ?_
      intro u hu
      rw [List.mem_map] at hu
      obtain ⟨v, hv, hveq⟩ := hu
      refine ⟨v, hv, ?_⟩
      subst hveq
      by_cases ho : isOpenFor c v = true
      · rw [if_pos ho]
        rfl
      · rw [if_neg ho]
    · intro d
      simp only [openCount]
      rw [List.countP_map]
      refine le_trans (List.countP_mono_left ?_) (hopen d)
      intro u _ hu
      have hu2 : isOpenFor d (if isOpenFor c u then
          closeRow e now ((db.state c).segment_generation) u else u) = true := hu
      by_cases ho : isOpenFor c u = true
      · rw [if_pos ho, isOpenFor_closeRow] at hu2
        cases hu2
      · rwa [if_neg ho] at hu2
  | newTrip c now boot =>
    have hlegall : ∀ t ∈ db.trips, isOpenFor c t = true →
        t.start_segment < (db.state c).segment_index := by
      simp only [legalTripOp, List.all_eq_true, Bool.or_eq_true,
        Bool.not_eq_true', decide_eq_true_eq] at hleg
      intro t ht hot
      cases hleg t ht with
      | inl h' =>
        rw [hot] at h'
        cases h'
      | inr h' => exact h'
    cases hfetch : fetch_open_trip db c with
    | none =>
      have hnone := fetch_open_trip_none_spec db c hfetch
      have hzero : db.trips.countP (isOpenFor c) = 0 := by
        rw [List.countP_eq_zero]
        intro t ht
        simp [hnone t ht]
      simp only [applyTripOp, new_trip, hfetch]
      constructor
      · exact wfDb_append_new db.trips db.saved_trips _ db.state db hwf rfl
          (fun u hu => ⟨u, hu, rfl⟩)
      · intro d
        simp only [openCount]
        rw [countP_append_single, isOpenFor_newTripRow]
        by_cases hdc : c = d
        · have hz : db.trips.countP (isOpenFor d) = 0 := by
            rw [← hdc]
            exact hzero
          simp [hdc, hz]
        · have hle := hopen d
          simp only [openCount] at hle
          simp [hdc]
          omega
    | some t =>
      obtain ⟨htmem, htopen, _⟩ := fetch_open_trip_some_spec db c t hfetch
      have hb : t.start_segment ≤ (db.state c).segment_index - 1 := by
        have := hlegall t htmem htopen
        omega
      have huniq : ∀ u ∈ db.trips, isOpenFor c u = true → u.id = t.id := by
        intro u hu hou
        have hcount := hopen c
        simp only [openCount, List.countP_eq_length_filter] at hcount
        have := mem_singleton_of_length_le_one hcount
          (List.mem_filter.mpr ⟨hu, hou⟩) (List.mem_filter.mpr ⟨htmem, htopen⟩)
        rw [this]
      simp only [applyTripOp, new_trip, hfetch, if_pos hb]
      constructor
      · refine wfDb_append_new _ db.saved_trips _ db.state db hwf rfl ?_
        intro u hu
        rw [List.mem_map] at hu
        obtain ⟨v, hv, hveq⟩ := hu
        refine ⟨v, hv, ?_⟩
        subst hveq
        by_cases hcl : (decide (v.id = t.id) && v.final_segment.isNone) = true
        · rw [if_pos hcl]
          rfl
        · rw [if_neg hcl]
      · intro d
        simp only [openCount]
        rw [countP_append_single, isOpenFor_newTripRow]
        by_cases hdc : c = d
        · have hz := countP_keyedClose_zero db.trips c t.id
            ((db.state c).segment_index - 1) now
            ((db.state c).segment_generation) huniq
          rw [← hdc]
          rw [hz]
          simp
        · have hneg : ¬ (decide (c = d) = true) := by simp [hdc]
          rw [if_neg hneg]
          have hmap := countP_keyedClose_le db.trips d t.id
            ((db.state c).segment_index - 1) now
            ((db.state c).segment_generation)
          have hle := hopen d
          simp only [openCount] at hle
          omega
  | saveTripAndStartNew c dir now boot =>
    have hlegall : ∀ t ∈ db.trips, isOpenFor c t = true →
        t.start_segment < (db.state c).segment_index := by
      simp only [legalTripOp, List.all_eq_true, Bool.or_eq_true,
        Bool.not_eq_true', decide_eq_true_eq] at hleg
      intro t ht hot
      cases hleg t ht with
      | inl h' =>
        rw [hot] at h'
        cases h'
      | inr h' => exact h'
    cases hfetch : fetch_open_trip db c with
    | none =>
      have hnone := fetch_open_trip_none_spec db c hfetch
      have hzero : db.trips.countP (isOpenFor c) = 0 := by
        rw [List.countP_eq_zero]
        intro t ht
        simp [hnone t ht]
      have hcond : ¬ ((0 : Int) ≠ 0 ∧
          (db.state c).segment_index ≤ (db.state c).segment_index - 1) :=
        fun h' => h'.1 rfl
      simp only [applyTripOp, save_trip_and_start_new, hfetch, if_neg hcond]
      constructor
      · exact wfDb_append_new db.trips db.saved_trips _ db.state db hwf rfl
          (fun u hu => ⟨u, hu, rfl⟩)
      · intro d
        simp only [openCount]
        rw [countP_append_single, isOpenFor_newTripRow]
        by_cases hdc : c = d
        · have hz : db.trips.countP (isOpenFor d) = 0 := by
            rw [← hdc]
            exact hzero
          simp [hdc, hz]
        · have hle := hopen d
          simp only [openCount] at hle
          simp [hdc]
          omega
    | some t =>
      obtain ⟨htmem, htopen, _⟩ := fetch_open_trip_some_spec db c t hfetch
      have ht1 : 1 ≤ t.id := by
        simp only [wfDb, Bool.and_eq_true, decide_eq_true_eq,
          List.all_eq_true] at hwf
        exact (hwf.2 t htmem).1
      have hb : t.start_segment ≤ (db.state c).segment_index - 1 := by
        have := hlegall t htmem htopen
        omega
      have hcond : t.id ≠ 0 ∧
          t.start_segment ≤ (db.state c).segment_index - 1 :=
        ⟨by omega, hb⟩
      have huniq : ∀ u ∈ db.trips, isOpenFor c u = true → u.id = t.id := by
        intro u hu hou
        have hcount := hopen c
        simp only [openCount, List.countP_eq_length_filter] at hcount
        have := mem_singleton_of_length_le_one hcount
          (List.mem_filter.mpr ⟨hu, hou⟩) (List.mem_filter.mpr ⟨htmem, htopen⟩)
        rw [this]
      simp only [applyTripOp, save_trip_and_start_new, hfetch, if_pos hcond]
      constructor
      · refine wfDb_append_new _ _ _ db.state db hwf rfl ?_
        intro u hu
        rw [List.mem_map] at hu
        obtain ⟨v, hv, hveq⟩ := hu
        refine ⟨v, hv, ?_⟩
        subst hveq
        by_cases hcl : (decide (v.id = t.id) && v.final_segment.isNone) = true
        · rw [if_pos hcl]
          rfl
        · rw [if_neg hcl]
      · intro d
        simp only [openCount]
        rw [countP_append_single, isOpenFor_newTripRow]
        by_cases hdc : c = d
        · have hz := countP_keyedClose_zero db.trips c t.id
            ((db.state c).segment_index - 1) now
            ((db.state c).segment_generation) huniq
          rw [← hdc]
          rw [hz]
          simp
        · have hneg : ¬ (decide (c = d) = true) := by simp [hdc]
          rw [if_neg hneg]
          have hmap := countP_keyedClose_le db.trips d t.id
            ((db.state c).segment_index - 1) now
            ((db.state c).segment_generation)
          have hle := hopen d
          simp only [openCount] at hle
          omega

theorem runTripOps_preserves_inv (db : Db) (ops : List TripOp)
    (hinv : TripInv db) (hleg : legalTripSeq db ops = true) :
    TripInv (runTripOps db ops) := by
  induction ops generalizing db with
  | nil => exact hinv
  | cons op rest ih =>
    simp only [legalTripSeq, Bool.and_eq_true] at hleg
    exact ih (applyTripOp db op) (tripOp_step db op hinv hleg.1) hleg.2

/-- C2 counterexample: from a fresh database, two successive new_trip calls
for camera 1 without any ring advance leave TWO trips with
final_segment IS NULL for that camera: the second call's close is skipped
because current - 1 is below the open trip's start_segment, while the insert
is unconditional. -/
theorem two_new_trips_two_open_counterexample :
    openCount
      (runTripOps (Db.mk [] [] 1 (fun _ => ⟨0, 0, 0⟩))
        [TripOp.newTrip 1 0 "b", TripOp.newTrip 1 5 "b"]) 1 = 2 := by
  decide

/-- C2 (amended): for every camera and every sequence of trip operations in
which insert_trip is only issued when the camera has no open trip and
new_trip / save_trip_and_start_new only when every open trip of the camera
started strictly before the camera's current segment_index, starting from a
database with well-formed rowids and at most one open trip per camera: after
each committed operation there is at most one trip row per camera with
final_segment IS NULL. -/
theorem trip_ledger_at_most_one_open (db : Db) (ops : List TripOp)
    (hwf : wfDb db = true) (hopen : ∀ c, openCount db c ≤ 1)
    (hleg : legalTripSeq db ops = true) :
    ∀ pre suf, ops = pre ++ suf → ∀ c, openCount (runTripOps db pre) c ≤ 1 := by
  intro pre suf hsplit c
  subst hsplit
  obtain ⟨hpre, _⟩ := legalTripSeq_append db pre suf hleg
  exact (runTripOps_preserves_inv db pre ⟨hwf, hopen⟩ hpre).2 c

/-- Witness for C2 (amended): a concrete legal insert / finalize / new_trip
sequence from the fresh database, checked after its second operation. -/
theorem trip_ledger_at_most_one_open_witness :
    openCount
      (runTripOps (Db.mk [] [] 1 (fun _ => ⟨4, 0, 4⟩))
        [TripOp.insertTrip 1 0 0 "b", TripOp.finalizeOpenTrip 1 3 0]) 1 ≤ 1 :=
  trip_ledger_at_most_one_open (Db.mk [] [] 1 (fun _ => ⟨4, 0, 4⟩))
    [TripOp.insertTrip 1 0 0 "b", TripOp.finalizeOpenTrip 1 3 0,
      TripOp.newTrip 1 0 "b"]
    (by decide) (fun c => by simp [openCount]) (by decide)
    [TripOp.insertTrip 1 0 0 "b", TripOp.finalizeOpenTrip 1 3 0]
    [TripOp.newTrip 1 0 "b"] rfl 1

theorem map_id_of_forall_eq {α : Type} (l : List α) (f : α → α)
    (h : ∀ a ∈ l, f a = a) : l.map f = l := by
  induction l with
  | nil => rfl
  | cons x xs ih =>
    rw [List.map_cons, h x (List.mem_cons_self x xs),
      ih (fun a ha => h a (List.mem_cons_of_mem x ha))]

theorem evictionStampCond_iff (c m ae : Int) (t : Trip) :
    evictionStampCond c m ae t = true ↔
      (t.fully_evicted = false ∧ t.camera_id = c ∧
        ∃ fs, t.final_segment = some fs ∧
          (t.end_gen.getD t.start_gen) * m + fs < ae) := by
  cases hf : t.final_segment with
  | none => simp [evictionStampCond, hf]
  | some fs => simp [evictionStampCond, hf, and_assoc]

/-- C5: mark_fully_evicted_trips stamps fully_evicted and evicted_at_utc = now
exactly on the trip rows of the camera that have final_segment set, are not
already stamped, and satisfy
COALESCE(end_gen, start_gen) * max_segments + final_segment <
max(absolute_segments - (max_segments - 1), 0); every other row (in
particular every open trip) is carried over unchanged, and a second call
changes nothing and reports 0 rows, so each trip is stamped at most once. -/
theorem mark_fully_evicted_trips_spec (db : Db) (c m now now2 : Int) :
    (∀ (i : Nat) (t : Trip), db.trips[i]? = some t →
      ((t.fully_evicted = false ∧ t.camera_id = c ∧
        ∃ fs, t.final_segment = some fs ∧
          (t.end_gen.getD t.start_gen) * m + fs <
            max ((db.state c).absolute_segments - (m - 1)) 0) →
        (mark_fully_evicted_trips db c m now).1.trips[i]? =
          some (stampRow now t)) ∧
      (¬ (t.fully_evicted = false ∧ t.camera_id = c ∧
        ∃ fs, t.final_segment = some fs ∧
          (t.end_gen.getD t.start_gen) * m + fs <
            max ((db.state c).absolute_segments - (m - 1)) 0) →
        (mark_fully_evicted_trips db c m now).1.trips[i]? = some t) ∧
      (t.final_segment = none →
        (mark_fully_evicted_trips db c m now).1.trips[i]? = some t)) ∧
    mark_fully_evicted_trips (mark_fully_evicted_trips db c m now).1 c m now2 =
      ((mark_fully_evicted_trips db c m now).1, 0) := by
  constructor
  · intro i t hit
    have htrips : (mark_fully_evicted_trips db c m now).1.trips =
        db.trips.map (fun u =>
          if evictionStampCond c m
              (max ((db.state c).absolute_segments - (m - 1)) 0) u then
            stampRow now u
          else u) := rfl
    have hmap : (mark_fully_evicted_trips db c m now).1.trips[i]? =
        (db.trips[i]?).map (fun u =>
          if evictionStampCond c m
              (max ((db.state c).absolute_segments - (m - 1)) 0) u then
            stampRow now u
          else u) := by
      rw [htrips, List.getElem?_map]
    refine ⟨fun hcond => ?_, fun hcond => ?_, fun hopen => ?_⟩
    · rw [hmap, hit]
      have hc : evictionStampCond c m
          (max ((db.state c).absolute_segments - (m - 1)) 0) t = true :=
        (evictionStampCond_iff _ _ _ t).mpr hcond
      simp [hc]
    · rw [hmap, hit]
      have hc : ¬ evictionStampCond c m
          (max ((db.state c).absolute_segments - (m - 1)) 0) t = true :=
        fun h => hcond ((evictionStampCond_iff _ _ _ t).mp h)
      simp [hc]
    · rw [hmap, hit]
      have hc : ¬ evictionStampCond c m
          (max ((db.state c).absolute_segments - (m - 1)) 0) t = true := by
        intro h
        obtain ⟨_, _, fs, hfs, _⟩ := (evictionStampCond_iff _ _ _ t).mp h
        rw [hopen] at hfs
        cases hfs
      simp [hc]
  · have hall : ∀ u ∈ (mark_fully_evicted_trips db c m now).1.trips,
        evictionStampCond c m
          (max (((mark_fully_evicted_trips db c m now).1.state c).absolute_segments
            - (m - 1)) 0) u = false := by
      intro u hu
      simp only [mark_fully_evicted_trips] at hu
      rw [List.mem_map] at hu
      obtain ⟨t, ht, hteq⟩ := hu
      subst hteq
      by_cases hc : evictionStampCond c m
          (max ((db.state c).absolute_segments - (m - 1)) 0) t = true
      · rw [if_pos hc]
        simp [evictionStampCond, stampRow]
      · rw [if_neg hc]
        rw [Bool.not_eq_true] at hc
        exact hc
    have htr : (mark_fully_evicted_trips db c m now).1.trips.map
        (fun u =>
          if evictionStampCond c m
              (max (((mark_fully_evicted_trips db c m now).1.state c).absolute_segments
                - (m - 1)) 0) u then
            stampRow now2 u
          else u) = (mark_fully_evicted_trips db c m now).1.trips := by
      refine map_id_of_forall_eq _ _ ?_
      intro u hu
      rw [hall u hu]
      simp
    have hcnt : ((mark_fully_evicted_trips db c m now).1.trips.filter
        (evictionStampCond c m
          (max (((mark_fully_evicted_trips db c m now).1.state c).absolute_segments
            - (m - 1)) 0))).length = 0 := by
      rw [List.filter_eq_nil_iff.mpr (fun a ha => by rw [hall a ha]; simp)]
      rfl
    have hpair : mark_fully_evicted_trips
        (mark_fully_evicted_trips db c m now).1 c m now2 =
        ({ (mark_fully_evicted_trips db c m now).1 with
            trips := (mark_fully_evicted_trips db c m now).1.trips.map (fun u =>
              if evictionStampCond c m
                  (max (((mark_fully_evicted_trips db c m now).1.state c).absolute_segments
                    - (m - 1)) 0) u then
                stampRow now2 u
              else u) },
         ((mark_fully_evicted_trips db c m now).1.trips.filter
            (evictionStampCond c m
              (max (((mark_fully_evicted_trips db c m now).1.state c).absolute_segments
                - (m - 1)) 0))).length) := rfl
    rw [hpair, Prod.mk.injEq]
    refine ⟨?_, hcnt⟩
    rw [htr]

/-- Witness for C5: with ring size 10 and absolute position 30, a closed trip
ending at absolute index 7 is stamped, the open trip is untouched, and a
second call is a no-op reporting 0. -/
theorem mark_fully_evicted_trips_spec_witness :
    (mark_fully_evicted_trips
      (Db.mk
        [Trip.mk 1 1 "b" 0 (some 1) 0 (some 7) (some "boot") (some "boot")
          none 0 (some 0) false none,
         Trip.mk 2 1 "b" 0 none 8 none (some "boot") none none 2 none
          false none]
        [] 3 (fun _ => ⟨5, 2, 30⟩)) 1 10 99).1.trips[0]? =
      some (stampRow 99
        (Trip.mk 1 1 "b" 0 (some 1) 0 (some 7) (some "boot") (some "boot")
          none 0 (some 0) false none)) ∧
    (mark_fully_evicted_trips
      (Db.mk
        [Trip.mk 1 1 "b" 0 (some 1) 0 (some 7) (some "boot") (some "boot")
          none 0 (some 0) false none,
         Trip.mk 2 1 "b" 0 none 8 none (some "boot") none none 2 none
          false none]
        [] 3 (fun _ => ⟨5, 2, 30⟩)) 1 10 99).1.trips[1]? =
      some (Trip.mk 2 1 "b" 0 none 8 none (some "boot") none none 2 none
        false none) ∧
    mark_fully_evicted_trips
      (mark_fully_evicted_trips
        (Db.mk
          [Trip.mk 1 1 "b" 0 (some 1) 0 (some 7) (some "boot") (some "boot")
            none 0 (some 0) false none,
           Trip.mk 2 1 "b" 0 none 8 none (some "boot") none none 2 none
            false none]
          [] 3 (fun _ => ⟨5, 2, 30⟩)) 1 10 99).1 1 10 100 =
      ((mark_fully_evicted_trips
        (Db.mk
          [Trip.mk 1 1 "b" 0 (some 1) 0 (some 7) (some "boot") (some "boot")
            none 0 (some 0) false none,
           Trip.mk 2 1 "b" 0 none 8 none (some "boot") none none 2 none
            false none]
          [] 3 (fun _ => ⟨5, 2, 30⟩)) 1 10 99).1, 0) := by
  obtain ⟨hpoint, hidem⟩ := mark_fully_evicted_trips_spec
    (Db.mk
      [Trip.mk 1 1 "b" 0 (some 1) 0 (some 7) (some "boot") (some "boot")
        none 0 (some 0) false none,
       Trip.mk 2 1 "b" 0 none 8 none (some "boot") none none 2 none
        false none]
      [] 3 (fun _ => ⟨5, 2, 30⟩)) 1 10 99 100
  refine ⟨?_, ?_, hidem⟩
  · exact (hpoint 0 _ rfl).1 ⟨rfl, rfl, 7, rfl, by decide⟩
  · exact (hpoint 1 _ rfl).2.2 rfl

theorem fetch_open_trip_of_no_open (db : Db) (c : Int)
    (h : ∀ t ∈ db.trips, isOpenFor c t = false) :
    fetch_open_trip db c = none := by
  have : db.trips.filter (isOpenFor c) = [] :=
    List.filter_eq_nil_iff.mpr (fun a ha => by rw [h a ha]; simp)
  unfold fetch_open_trip
  rw [this]
  rfl

/-- C6: save_trip_and_start_new returns
(new_trip, closed_id, closed_start, closed_end) with
closed_end = current - 1, where closed_id = 0 exactly when the camera had no
open trip; exactly when a close actually happens (closed_id nonzero and
closed_start <= closed_end) one saved_trips row (closed_id, saved_dir, now)
is appended and the open trip with id closed_id is closed; otherwise both
tables are unchanged except for the insert; in every case a new open trip
with start_segment = current index is inserted in the same transaction. -/
theorem save_trip_and_start_new_spec (db : Db) (c : Int) (dir : String)
    (now : Int) (boot : String) (db2 : Db) (newt : Trip)
    (cid cstart cend : Int) (hwf : wfDb db = true)
    (hr : save_trip_and_start_new db c dir now boot =
      (db2, newt, cid, cstart, cend)) :
    (cid = 0 ↔ ∀ t ∈ db.trips, isOpenFor c t = false) ∧
    cend = (db.state c).segment_index - 1 ∧
    (cid ≠ 0 ∧ cstart ≤ cend →
      db2.saved_trips = db.saved_trips ++ [SavedTrip.mk cid dir now] ∧
      ∃ t ∈ db.trips, isOpenFor c t = true ∧ t.id = cid ∧
        t.start_segment = cstart ∧
        closeRow cend now ((db.state c).segment_generation) t ∈ db2.trips) ∧
    (¬ (cid ≠ 0 ∧ cstart ≤ cend) →
      db2.saved_trips = db.saved_trips ∧ db2.trips = db.trips ++ [newt]) ∧
    newt = newTripRow db.next_id c boot now ((db.state c).segment_index)
      ((db.state c).segment_generation) ∧
    db2.trips.length = db.trips.length + 1 ∧
    db2.trips[db.trips.length]? = some newt := by
  cases hfetch : fetch_open_trip db c with
  | none =>
    have hnone := fetch_open_trip_none_spec db c hfetch
    have hcond : ¬ ((0 : Int) ≠ 0 ∧
        (db.state c).segment_index ≤ (db.state c).segment_index - 1) :=
      fun h' => h'.1 rfl
    simp only [save_trip_and_start_new, hfetch, if_neg hcond] at hr
    rw [Prod.mk.injEq, Prod.mk.injEq, Prod.mk.injEq, Prod.mk.injEq] at hr
    obtain ⟨hdb2, hnew, hcid, hcs, hce⟩ := hr
    subst hdb2
    subst hnew
    subst hcid
    subst hcs
    subst hce
    refine ⟨iff_of_true rfl hnone, rfl, ?_, ?_, rfl, ?_, ?_⟩
    · intro h'
      exact absurd rfl h'.1
    · intro _
      exact ⟨rfl, rfl⟩
    · simp
    · exact List.getElem?_concat_length db.trips _
  | some t =>
    obtain ⟨htmem, htopen, _⟩ := fetch_open_trip_some_spec db c t hfetch
    have ht1 : 1 ≤ t.id := by
      simp only [wfDb, Bool.and_eq_true, decide_eq_true_eq,
        List.all_eq_true] at hwf
      exact (hwf.2 t htmem).1
    have hnotall : ¬ ∀ u ∈ db.trips, isOpenFor c u = false := by
      intro hall
      rw [hall t htmem] at htopen
      cases htopen
    by_cases hc : t.id ≠ 0 ∧
        t.start_segment ≤ (db.state c).segment_index - 1
    · simp only [save_trip_and_start_new, hfetch, if_pos hc] at hr
      rw [Prod.mk.injEq, Prod.mk.injEq, Prod.mk.injEq, Prod.mk.injEq] at hr
      obtain ⟨hdb2, hnew, hcid, hcs, hce⟩ := hr
      subst hdb2
      subst hnew
      subst hcid
      subst hcs
      subst hce
      refine ⟨iff_of_false (by omega) hnotall, rfl, ?_, ?_, rfl, ?_, ?_⟩
      · intro _
        refine ⟨rfl, t, htmem, htopen, rfl, rfl, ?_⟩
        refine List.mem_append_left _ (List.mem_map.mpr ⟨t, htmem, ?_⟩)
        have hfin : t.final_segment.isNone = true := by
          simp only [isOpenFor, Bool.and_eq_true] at htopen
          exact htopen.1
        simp [hfin]
      · intro h'
        exact absurd hc h'
      · simp
      · have hlen : (db.trips.map (fun (u : Trip) =>
            if decide (u.id = t.id) && u.final_segment.isNone then
              closeRow ((db.state c).segment_index - 1) now
                ((db.state c).segment_generation) u
            else u)).length = db.trips.length := List.length_map _ _
        rw [← hlen]
        exact List.getElem?_concat_length _ _
    · simp only [save_trip_and_start_new, hfetch, if_neg hc] at hr
      rw [Prod.mk.injEq, Prod.mk.injEq, Prod.mk.injEq, Prod.mk.injEq] at hr
      obtain ⟨hdb2, hnew, hcid, hcs, hce⟩ := hr
      subst hdb2
      subst hnew
      subst hcid
      subst hcs
      subst hce
      refine ⟨iff_of_false (by omega) hnotall, rfl, ?_, ?_, rfl, ?_, ?_⟩
      · intro h'
        exact absurd h' hc
      · intro _
        exact ⟨rfl, rfl⟩
      · simp
      · exact List.getElem?_concat_length db.trips _

/-- Witness for C6: one open trip (id 1, start 2) at ring position 5 is
closed with closed_end 4, one saved_trips row is appended, and the new open
trip starts at index 5. -/
theorem save_trip_and_start_new_spec_witness :
    ((save_trip_and_start_new (Db.mk [Trip.mk 1 1 "b" 0 none 2 none (some "boot") none none 0 none false none] [] 2 (fun _ => ⟨5, 0, 5⟩)) 1 "d" 7 "b").2.2.1 = 0 ↔
      ∀ t ∈ (Db.mk [Trip.mk 1 1 "b" 0 none 2 none (some "boot") none none 0 none false none] [] 2 (fun _ => ⟨5, 0, 5⟩)).trips, isOpenFor 1 t = false) ∧
    (save_trip_and_start_new (Db.mk [Trip.mk 1 1 "b" 0 none 2 none (some "boot") none none 0 none false none] [] 2 (fun _ => ⟨5, 0, 5⟩)) 1 "d" 7 "b").2.2.2.2 = ((Db.mk [Trip.mk 1 1 "b" 0 none 2 none (some "boot") none none 0 none false none] [] 2 (fun _ => ⟨5, 0, 5⟩)).state 1).segment_index - 1 ∧
    ((save_trip_and_start_new (Db.mk [Trip.mk 1 1 "b" 0 none 2 none (some "boot") none none 0 none false none] [] 2 (fun _ => ⟨5, 0, 5⟩)) 1 "d" 7 "b").2.2.1 ≠ 0 ∧ (save_trip_and_start_new (Db.mk [Trip.mk 1 1 "b" 0 none 2 none (some "boot") none none 0 none false none] [] 2 (fun _ => ⟨5, 0, 5⟩)) 1 "d" 7 "b").2.2.2.1 ≤ (save_trip_and_start_new (Db.mk [Trip.mk 1 1 "b" 0 none 2 none (some "boot") none none 0 none false none] [] 2 (fun _ => ⟨5, 0, 5⟩)) 1 "d" 7 "b").2.2.2.2 →
      (save_trip_and_start_new (Db.mk [Trip.mk 1 1 "b" 0 none 2 none (some "boot") none none 0 none false none] [] 2 (fun _ => ⟨5, 0, 5⟩)) 1 "d" 7 "b").1.saved_trips = (Db.mk [Trip.mk 1 1 "b" 0 none 2 none (some "boot") none none 0 none false none] [] 2 (fun _ => ⟨5, 0, 5⟩)).saved_trips ++
        [SavedTrip.mk (save_trip_and_start_new (Db.mk [Trip.mk 1 1 "b" 0 none 2 none (some "boot") none none 0 none false none] [] 2 (fun _ => ⟨5, 0, 5⟩)) 1 "d" 7 "b").2.2.1 "d" 7] ∧
      ∃ t ∈ (Db.mk [Trip.mk 1 1 "b" 0 none 2 none (some "boot") none none 0 none false none] [] 2 (fun _ => ⟨5, 0, 5⟩)).trips, isOpenFor 1 t = true ∧ t.id = (save_trip_and_start_new (Db.mk [Trip.mk 1 1 "b" 0 none 2 none (some "boot") none none 0 none false none] [] 2 (fun _ => ⟨5, 0, 5⟩)) 1 "d" 7 "b").2.2.1 ∧
        t.start_segment = (save_trip_and_start_new (Db.mk [Trip.mk 1 1 "b" 0 none 2 none (some "boot") none none 0 none false none] [] 2 (fun _ => ⟨5, 0, 5⟩)) 1 "d" 7 "b").2.2.2.1 ∧
        closeRow (save_trip_and_start_new (Db.mk [Trip.mk 1 1 "b" 0 none 2 none (some "boot") none none 0 none false none] [] 2 (fun _ => ⟨5, 0, 5⟩)) 1 "d" 7 "b").2.2.2.2 7 (((Db.mk [Trip.mk 1 1 "b" 0 none 2 none (some "boot") none none 0 none false none] [] 2 (fun _ => ⟨5, 0, 5⟩)).state 1).segment_generation) t ∈
          (save_trip_and_start_new (Db.mk [Trip.mk 1 1 "b" 0 none 2 none (some "boot") none none 0 none false none] [] 2 (fun _ => ⟨5, 0, 5⟩)) 1 "d" 7 "b").1.trips) ∧
    (¬ ((save_trip_and_start_new (Db.mk [Trip.mk 1 1 "b" 0 none 2 none (some "boot") none none 0 none false none] [] 2 (fun _ => ⟨5, 0, 5⟩)) 1 "d" 7 "b").2.2.1 ≠ 0 ∧ (save_trip_and_start_new (Db.mk [Trip.mk 1 1 "b" 0 none 2 none (some "boot") none none 0 none false none] [] 2 (fun _ => ⟨5, 0, 5⟩)) 1 "d" 7 "b").2.2.2.1 ≤ (save_trip_and_start_new (Db.mk [Trip.mk 1 1 "b" 0 none 2 none (some "boot") none none 0 none false none] [] 2 (fun _ => ⟨5, 0, 5⟩)) 1 "d" 7 "b").2.2.2.2) →
      (save_trip_and_start_new (Db.mk [Trip.mk 1 1 "b" 0 none 2 none (some "boot") none none 0 none false none] [] 2 (fun _ => ⟨5, 0, 5⟩)) 1 "d" 7 "b").1.saved_trips = (Db.mk [Trip.mk 1 1 "b" 0 none 2 none (some "boot") none none 0 none false none] [] 2 (fun _ => ⟨5, 0, 5⟩)).saved_trips ∧
      (save_trip_and_start_new (Db.mk [Trip.mk 1 1 "b" 0 none 2 none (some "boot") none none 0 none false none] [] 2 (fun _ => ⟨5, 0, 5⟩)) 1 "d" 7 "b").1.trips = (Db.mk [Trip.mk 1 1 "b" 0 none 2 none (some "boot") none none 0 none false none] [] 2 (fun _ => ⟨5, 0, 5⟩)).trips ++ [(save_trip_and_start_new (Db.mk [Trip.mk 1 1 "b" 0 none 2 none (some "boot") none none 0 none false none] [] 2 (fun _ => ⟨5, 0, 5⟩)) 1 "d" 7 "b").2.1]) ∧
    (save_trip_and_start_new (Db.mk [Trip.mk 1 1 "b" 0 none 2 none (some "boot") none none 0 none false none] [] 2 (fun _ => ⟨5, 0, 5⟩)) 1 "d" 7 "b").2.1 = newTripRow (Db.mk [Trip.mk 1 1 "b" 0 none 2 none (some "boot") none none 0 none false none] [] 2 (fun _ => ⟨5, 0, 5⟩)).next_id 1 "b" 7 (((Db.mk [Trip.mk 1 1 "b" 0 none 2 none (some "boot") none none 0 none false none] [] 2 (fun _ => ⟨5, 0, 5⟩)).state 1).segment_index)
      (((Db.mk [Trip.mk 1 1 "b" 0 none 2 none (some "boot") none none 0 none false none] [] 2 (fun _ => ⟨5, 0, 5⟩)).state 1).segment_generation) ∧
    (save_trip_and_start_new (Db.mk [Trip.mk 1 1 "b" 0 none 2 none (some "boot") none none 0 none false none] [] 2 (fun _ => ⟨5, 0, 5⟩)) 1 "d" 7 "b").1.trips.length = (Db.mk [Trip.mk 1 1 "b" 0 none 2 none (some "boot") none none 0 none false none] [] 2 (fun _ => ⟨5, 0, 5⟩)).trips.length + 1 ∧
    (save_trip_and_start_new (Db.mk [Trip.mk 1 1 "b" 0 none 2 none (some "boot") none none 0 none false none] [] 2 (fun _ => ⟨5, 0, 5⟩)) 1 "d" 7 "b").1.trips[(Db.mk [Trip.mk 1 1 "b" 0 none 2 none (some "boot") none none 0 none false none] [] 2 (fun _ => ⟨5, 0, 5⟩)).trips.length]? = some (save_trip_and_start_new (Db.mk [Trip.mk 1 1 "b" 0 none 2 none (some "boot") none none 0 none false none] [] 2 (fun _ => ⟨5, 0, 5⟩)) 1 "d" 7 "b").2.1 :=
  save_trip_and_start_new_spec (Db.mk [Trip.mk 1 1 "b" 0 none 2 none (some "boot") none none 0 none false none] [] 2 (fun _ => ⟨5, 0, 5⟩)) 1 "d" 7 "b"
    (save_trip_and_start_new (Db.mk [Trip.mk 1 1 "b" 0 none 2 none (some "boot") none none 0 none false none] [] 2 (fun _ => ⟨5, 0, 5⟩)) 1 "d" 7 "b").1 (save_trip_and_start_new (Db.mk [Trip.mk 1 1 "b" 0 none 2 none (some "boot") none none 0 none false none] [] 2 (fun _ => ⟨5, 0, 5⟩)) 1 "d" 7 "b").2.1 (save_trip_and_start_new (Db.mk [Trip.mk 1 1 "b" 0 none 2 none (some "boot") none none 0 none false none] [] 2 (fun _ => ⟨5, 0, 5⟩)) 1 "d" 7 "b").2.2.1 (save_trip_and_start_new (Db.mk [Trip.mk 1 1 "b" 0 none 2 none (some "boot") none none 0 none false none] [] 2 (fun _ => ⟨5, 0, 5⟩)) 1 "d" 7 "b").2.2.2.1 (save_trip_and_start_new (Db.mk [Trip.mk 1 1 "b" 0 none 2 none (some "boot") none none 0 none false none] [] 2 (fun _ => ⟨5, 0, 5⟩)) 1 "d" 7 "b").2.2.2.2 (by decide) rfl

/-- Camera role enumeration from src/config.rs. -/
inductive CameraRole where
  | Dashcam
  | Nvr
  | Preview
deriving DecidableEq, Repr

/-- Source kind enumeration from src/config.rs. -/
inductive SourceKind where
  | Libcamera
  | Rtsp
  | V4l2
deriving DecidableEq, Repr

/-- SourceConfig from src/config.rs; its derived equality (all three fields)
is what the duplicate-source check compares. -/
structure SourceConfig where
  kind : SourceKind
  rtsp_url : Option String
  device : Option String
deriving DecidableEq, Repr

/-- SinkConfig from src/config.rs. -/
inductive SinkConfig where
  | DashcamTs (max_segments : Int) (segment_duration_sec : Nat) (sink_id : Int)
  | NvrTs (segment_duration_sec : Nat) (sink_id : Int)
  | Hls (segment_duration_sec : Nat) (sink_id : Int)
deriving DecidableEq, Repr

/-- CameraConfig from src/config.rs. -/
structure CameraConfig where
  key : String
  name : String
  enabled : Bool
  role : CameraRole
  video_width : Option Int
  video_height : Option Int
  video_framerate : Option Int
  source : SourceConfig
  sinks : List SinkConfig
deriving DecidableEq, Repr

/-- GlobalConfig from src/config.rs. -/
structure GlobalConfig where
  main_dir : String
  recording_root : String
  db_path : String
  schema_path : String
  log_level : Option String
deriving DecidableEq, Repr

/-- AppConfig from src/config.rs. -/
structure AppConfig where
  global : GlobalConfig
  cameras : List CameraConfig
deriving DecidableEq, Repr

/-- The camera loop of verify_app_config (src/config.rs lines 65-87) with the
checklist accumulated so far: reject a source equal to one already seen,
reject rtsp without rtsp_url, reject v4l2 without device, then push the
source and continue.  Note that the enabled flag is never consulted. -/
def verifyCamerasLoop (checklist : List SourceConfig) :
    List CameraConfig → Bool
  | [] => true
  | camera_config :: rest =>
    let camera_source := camera_config.source
    if checklist.any (fun item => decide (item = camera_source)) then false
    else if camera_source.kind = SourceKind.Rtsp ∧
        camera_source.rtsp_url = none then false
    else if camera_source.kind = SourceKind.V4l2 ∧
        camera_source.device = none then false
    else verifyCamerasLoop (checklist ++ [camera_source]) rest

/-- Embedding of verify_app_config (src/config.rs lines 65-87). -/
def verify_app_config (app_config : AppConfig) : Bool :=
  verifyCamerasLoop [] app_config.cameras

/-- Transcription of the claim's rejection condition ("two ENABLED cameras
share the same source, or a camera with an rtsp source has no rtsp_url, or a
camera with a local-device (v4l2) source has no device"), used to exhibit the
divergence from the code, which ignores the enabled flag. -/
def enabledSharedSource : List CameraConfig → Bool
  | [] => false
  | cc :: rest =>
    (cc.enabled && rest.any (fun dd => dd.enabled &&
      decide (dd.source = cc.source))) || enabledSharedSource rest

/-- Transcription of the claim's full rejection condition. -/
def rejectsPerSpecClaim (cfg : AppConfig) : Bool :=
  enabledSharedSource cfg.cameras ||
  cfg.cameras.any (fun cc => decide (cc.source.kind = SourceKind.Rtsp) &&
    decide (cc.source.rtsp_url = none)) ||
  cfg.cameras.any (fun cc => decide (cc.source.kind = SourceKind.V4l2) &&
    decide (cc.source.device = none))

/-- C8 counterexample: a config with two DISABLED cameras sharing the same
libcamera source is rejected by verify_app_config although none of the
claim's rejection conditions (which require the cameras to be enabled)
holds, so "rejects exactly when" fails. -/
theorem verify_app_config_enabled_counterexample :
    verify_app_config
      (AppConfig.mk (GlobalConfig.mk "m" "r" "db" "s" none)
        [CameraConfig.mk "k1" "n1" false CameraRole.Dashcam none none none
          (SourceConfig.mk SourceKind.Libcamera none none) [],
         CameraConfig.mk "k2" "n2" false CameraRole.Dashcam none none none
          (SourceConfig.mk SourceKind.Libcamera none none) []]) = false ∧
    rejectsPerSpecClaim
      (AppConfig.mk (GlobalConfig.mk "m" "r" "db" "s" none)
        [CameraConfig.mk "k1" "n1" false CameraRole.Dashcam none none none
          (SourceConfig.mk SourceKind.Libcamera none none) [],
         CameraConfig.mk "k2" "n2" false CameraRole.Dashcam none none none
          (SourceConfig.mk SourceKind.Libcamera none none) []]) = false := by
  constructor
  · rfl
  · rfl

theorem verifyCamerasLoop_true_iff (cams : List CameraConfig) :
    ∀ cl : List SourceConfig, verifyCamerasLoop cl cams = true ↔
      ((cams.map (fun cc => cc.source)).Nodup ∧
       (∀ cc ∈ cams, cc.source ∉ cl) ∧
       (∀ cc ∈ cams, ¬(cc.source.kind = SourceKind.Rtsp ∧
          cc.source.rtsp_url = none)) ∧
       (∀ cc ∈ cams, ¬(cc.source.kind = SourceKind.V4l2 ∧
          cc.source.device = none))) := by
  induction cams with
  | nil =>
    intro cl
    simp [verifyCamerasLoop]
  | cons cc rest ih =>
    intro cl
    simp only [verifyCamerasLoop]
    by_cases h1 : cl.any (fun item => decide (item = cc.source)) = true
    · rw [if_pos h1]
      have hmem : cc.source ∈ cl := by
        obtain ⟨x, hx, hxe⟩ := List.any_eq_true.mp h1
        rw [decide_eq_true_eq] at hxe
        rw [← hxe]
        exact hx
      constructor
      · intro h'
        cases h'
      · rintro ⟨-, hcl, -, -⟩
        exact absurd hmem (hcl cc (List.mem_cons_self _ _))
    · rw [if_neg h1]
      have hclcc : cc.source ∉ cl := by
        intro hmem
        exact h1 (List.any_eq_true.mpr ⟨cc.source, hmem, by simp⟩)
      by_cases h2 : cc.source.kind = SourceKind.Rtsp ∧
          cc.source.rtsp_url = none
      · rw [if_pos h2]
        constructor
        · intro h'
          cases h'
        · rintro ⟨-, -, hrt, -⟩
          exact absurd h2 (hrt cc (List.mem_cons_self _ _))
      · rw [if_neg h2]
        by_cases h3 : cc.source.kind = SourceKind.V4l2 ∧
            cc.source.device = none
        · rw [if_pos h3]
          constructor
          · intro h'
            cases h'
          · rintro ⟨-, -, -, hv4⟩
            exact absurd h3 (hv4 cc (List.mem_cons_self _ _))
        · rw [if_neg h3]
          rw [ih (cl ++ [cc.source])]
          constructor
          · rintro ⟨hnd, hB, hC, hD⟩
            refine ⟨?_, ?_, ?_, ?_⟩
            · rw [List.map_cons, List.nodup_cons]
              refine ⟨?_, hnd⟩
              intro hmem
              rw [List.mem_map] at hmem
              obtain ⟨x, hx, hxe⟩ := hmem
              apply hB x hx
              rw [List.mem_append, List.mem_singleton]
              exact Or.inr hxe
            · intro x hx
              cases hx with
              | head => exact hclcc
              | tail _ hx' =>
                intro hmem
                exact hB x hx' (by rw [List.mem_append]; exact Or.inl hmem)
            · intro x hx
              cases hx with
              | head => exact h2
              | tail _ hx' => exact hC x hx'
            · intro x hx
              cases hx with
              | head => exact h3
              | tail _ hx' => exact hD x hx'
          · rintro ⟨hnd, hcl2, hrt, hv4⟩
            rw [List.map_cons, List.nodup_cons] at hnd
            refine ⟨hnd.2, ?_, ?_, ?_⟩
            · intro x hx
              rw [List.mem_append, List.mem_singleton]
              rintro (hmem | hmem)
              · exact hcl2 x (List.mem_cons_of_mem _ hx) hmem
              · exact hnd.1 (List.mem_map.mpr ⟨x, hx, hmem⟩)
            · exact fun x hx => hrt x (List.mem_cons_of_mem _ hx)
            · exact fun x hx => hv4 x (List.mem_cons_of_mem _ hx)

/-- C8 (amended): verify_app_config rejects the config exactly when two
cameras (whether enabled or not) share the same source, or a camera with an
rtsp source has no rtsp_url, or a camera with a v4l2 source has no device;
otherwise the config is accepted.  The code never consults the enabled
flag. -/
theorem verify_app_config_false_iff (cfg : AppConfig) :
    verify_app_config cfg = false ↔
      (¬ (cfg.cameras.map (fun cc => cc.source)).Nodup ∨
       (∃ cc ∈ cfg.cameras, cc.source.kind = SourceKind.Rtsp ∧
          cc.source.rtsp_url = none) ∨
       (∃ cc ∈ cfg.cameras, cc.source.kind = SourceKind.V4l2 ∧
          cc.source.device = none)) := by
  have htrue := verifyCamerasLoop_true_iff cfg.cameras []
  have hfalse : verify_app_config cfg = false ↔
      ¬ verify_app_config cfg = true := by
    cases h : verify_app_config cfg <;> simp
  rw [hfalse]
  unfold verify_app_config
  rw [htrue]
  constructor
  · intro h'
    by_cases hnd : (cfg.cameras.map (fun cc => cc.source)).Nodup
    · by_cases hrt : ∃ cc ∈ cfg.cameras, cc.source.kind = SourceKind.Rtsp ∧
          cc.source.rtsp_url = none
      · exact Or.inr (Or.inl hrt)
      · by_cases hv4 : ∃ cc ∈ cfg.cameras, cc.source.kind = SourceKind.V4l2 ∧
            cc.source.device = none
        · exact Or.inr (Or.inr hv4)
        · exfalso
          apply h'
          refine ⟨hnd, by simp, ?_, ?_⟩
          · intro x hx hbad
            exact hrt ⟨x, hx, hbad⟩
          · intro x hx hbad
            exact hv4 ⟨x, hx, hbad⟩
    · exact Or.inl hnd
  · rintro (hnd | ⟨x, hx, hxe⟩ | ⟨x, hx, hxe⟩) ⟨h1, h2, h3, h4⟩
    · exact hnd h1
    · exact h3 x hx hxe
    · exact h4 x hx hxe
